import Mathlib

/-!
Verification of the session-registry core of a Playwright-based MCP server
(`src/session_server.py`).

The embedding below translates the registry, session, tab-list and teardown
logic of `session_server.py` into pure Lean functions:

* Python's insertion-ordered `dict` `sessions` becomes an association list
  `List (String × BrowserSession)` whose keys are unique in every reachable
  state; in-place mutation becomes explicit state passing on `ServerState`.
* Driver handles (`Browser`, `BrowserContext`, `Page`, the playwright
  top-level object) are opaque; we model them as `Nat` tags wrapped in
  `Option` exactly where the Python field can be `None`.
* Timestamps (`datetime.now().timestamp()`) are modelled as `Int`; every
  property proved is order-theoretic in the timestamps.
* `asyncio.create_task(cleanup_session(...))` in `get_session` only
  *schedules* the teardown; we model the scheduled-but-not-yet-run tasks as
  the FIFO `pending` list, and `runPending` models the event loop later
  running them.
* A driver call that may raise (`context.close()`, `browser.close()`,
  `playwright.stop()`) is modelled with a `FailureOracle` choosing which
  step raises; `try/except Exception/finally` becomes explicit control flow
  (`runReleaseSteps` returns the steps actually attempted and the first
  failure), `print` becomes appending to `log`.
* The per-page `page.on("console", ...)` / `page.on("request", ...)`
  closures of `_setup_page_listeners` are defunctionalized as the
  `listeners : List (Nat × String)` binding table (page handle ↦ owning
  session id); `deliverEvent` models the driver firing every callback
  registered for a page.
-/

namespace PwMcp

/-- One captured console message: the dict
`{"type": ..., "text": ..., "location": ...}` built by the console listener
in `_setup_page_listeners`. -/
structure ConsoleMsg where
  type : String
  text : String
  location : String
deriving DecidableEq

/-- One captured network request: the dict
`{"url": ..., "method": ..., "headers": ..., "resourceType": ...}` built by
the request listener in `_setup_page_listeners`. -/
structure NetworkReq where
  url : String
  method : String
  headers : List (String × String)
  resourceType : String
deriving DecidableEq

/-- The `BrowserSession` dataclass of `session_server.py`.  Driver handles
are opaque `Nat` tags; `Optional[...]` fields become `Option Nat`.
`current_page_index` is a Python `int`, hence `Int` here. -/
structure BrowserSession where
  session_id : String
  browser : Option Nat := none
  context : Option Nat := none
  pages : List Nat := []
  current_page_index : Int := 0
  playwright_instance : Option Nat := none
  console_messages : List ConsoleMsg := []
  network_requests : List NetworkReq := []
  created_at : Int := 0
  last_activity : Int := 0
deriving DecidableEq

/-- `MAX_SESSIONS = 10` in `session_server.py`. -/
def MAX_SESSIONS : Nat := 10

/-- `SESSION_TIMEOUT = 1800` seconds in `session_server.py`. -/
def SESSION_TIMEOUT : Int := 1800

/-- `BrowserSession(session_id=session_id)`: a fresh, unopened session whose
`created_at`/`last_activity` default factories evaluate to the current
time `t`. -/
def newSession (sid : String) (t : Int) : BrowserSession :=
  { session_id := sid, created_at := t, last_activity := t }

/-- Association-list lookup, the model of `d[k]` / `k in d` on a Python
dict (keys are unique in every reachable state, so first match is the
entry). -/
def lookupKey {α β : Type} [DecidableEq α] (k : α) : List (α × β) → Option β
  | [] => none
  | p :: rest => if p.1 = k then some p.2 else lookupKey k rest

/-- Association-list removal of the (first) entry with key `k`: the model of
`del d[k]` (a no-op when `k` is absent models Python's guarded `del`). -/
def eraseKey {α β : Type} [DecidableEq α] (k : α) : List (α × β) → List (α × β)
  | [] => []
  | p :: rest => if p.1 = k then rest else p :: eraseKey k rest

/-- In-place update of the value stored at key `k`: the model of a mutation
of the session object held in the dict (insertion order is preserved). -/
def updateKey {α β : Type} [DecidableEq α] (k : α) (f : β → β) :
    List (α × β) → List (α × β)
  | [] => []
  | p :: rest => if p.1 = k then (p.1, f p.2) :: rest else p :: updateKey k f rest

/-- `min(sessions.keys(), key=lambda sid: sessions[sid].last_activity)`:
Python's `min` scans in iteration (= insertion) order and keeps the first
element attaining the minimum, so ties prefer the earlier entry.  The
recursion below has exactly that semantics: on `p :: rest`, the head `p`
wins unless the minimum of `rest` is strictly smaller. -/
def pyMinEntry : List (String × BrowserSession) → Option (String × BrowserSession)
  | [] => none
  | p :: rest =>
    match pyMinEntry rest with
    | none => some p
    | some q => if q.2.last_activity < p.2.last_activity then some q else some p

/-- The whole mutable module state of `session_server.py`:
`sessions` (the registry dict), `pending` (cleanup tasks scheduled with
`asyncio.create_task` but not yet run), `listeners` (the page→session
bindings created by `_setup_page_listeners`), and `log` (lines printed by
teardown error handling). -/
structure ServerState where
  sessions : List (String × BrowserSession)
  pending : List String
  listeners : List (Nat × String)
  log : List String
deriving DecidableEq

/-- The state at module load: empty registry. -/
def emptyState : ServerState :=
  { sessions := [], pending := [], listeners := [], log := [] }

/-- `get_session` (lines 126–140).  If the id is absent and the registry is
at capacity, the least-recently-active session is chosen with `min` and a
`cleanup_session` task is *scheduled* (`asyncio.create_task` — appended to
`pending`, not run); the new entry is then installed immediately.  Finally
`last_activity` is set to the current time `t`. -/
def get_session (t : Int) (session_id : String) (st : ServerState) : ServerState :=
  let st1 :=
    if lookupKey session_id st.sessions = none then
      let st2 :=
        if MAX_SESSIONS ≤ st.sessions.length then
          match pyMinEntry st.sessions with
          | some oldest => { st with pending := st.pending ++ [oldest.1] }
          | none => st
        else st
      { st2 with sessions := st2.sessions ++ [(session_id, newSession session_id t)] }
    else st
  { st1 with
      sessions :=
        updateKey session_id (fun s => { s with last_activity := t }) st1.sessions }

/-- The three driver release steps attempted inside `cleanup_session`'s
single `try` block, in source order. -/
inductive ReleaseStep
  | closeContext
  | closeBrowser
  | stopDriver
deriving DecidableEq

/-- Chooses which (if any) of the release driver calls raises, modelling
the environment: `context.close()`, `browser.close()`,
`playwright_instance.stop()`. -/
structure FailureOracle where
  ctxFails : Bool := false
  browserFails : Bool := false
  stopFails : Bool := false
deriving DecidableEq

/-- The body of `cleanup_session`'s `try` block (lines 147–152): the guards
`if session.browser:` / `if session.playwright_instance:` are from the
source, and a raise at any `await` aborts the rest of the block (they all
sit inside one shared `try`).  Returns the steps actually attempted and
the step that raised, if any. -/
def runReleaseSteps (s : BrowserSession) (o : FailureOracle) :
    List ReleaseStep × Option ReleaseStep :=
  if s.browser.isSome then
    if o.ctxFails then ([.closeContext], some .closeContext)
    else if o.browserFails then
      ([.closeContext, .closeBrowser], some .closeBrowser)
    else if s.playwright_instance.isSome then
      if o.stopFails then
        ([.closeContext, .closeBrowser, .stopDriver], some .stopDriver)
      else ([.closeContext, .closeBrowser, .stopDriver], none)
    else ([.closeContext, .closeBrowser], none)
  else ([], none)

/-- The line printed by `cleanup_session`'s `except` clause. -/
def cleanupErrorLog (session_id : String) : String :=
  "Error cleaning up session " ++ session_id

/-- `cleanup_session` (lines 143–156).  If the id is resident: the release
steps run inside one `try`; `except Exception` catches any raise and prints
(appends to `log`); the `finally` clause deletes the registry entry
unconditionally.  The function always returns normally — no exception
escapes to the caller (`except Exception` catches every failure modelled by
the oracle), which is why the result type is plain `ServerState`. -/
def cleanup_session (session_id : String) (o : FailureOracle) (st : ServerState) :
    ServerState :=
  match lookupKey session_id st.sessions with
  | none => st
  | some s =>
    let stLogged :=
      match (runReleaseSteps s o).2 with
      | some _ => { st with log := st.log ++ [cleanupErrorLog session_id] }
      | none => st
    { stLogged with sessions := eraseKey session_id stLogged.sessions }

/-- `browser_close` (lines 246–254): awaits `cleanup_session` and always
returns the success message. -/
def browser_close (session_id : String) (o : FailureOracle) (st : ServerState) :
    ServerState × String :=
  (cleanup_session session_id o st,
   "Browser closed and resources cleaned up for session " ++ session_id)

/-- One sweep of the idle reaper `session_cleanup_task` (lines 159–174):
snapshot the ids whose inactivity strictly exceeds `SESSION_TIMEOUT`, then
await `cleanup_session` on each in turn. -/
def session_cleanup_sweep (now : Int) (o : FailureOracle) (st : ServerState) :
    ServerState :=
  let inactive :=
    (st.sessions.filter fun p => SESSION_TIMEOUT < now - p.2.last_activity).map
      Prod.fst
  inactive.foldl (fun acc sid => cleanup_session sid o acc) st

/-- The event loop running every cleanup task scheduled by `get_session`
(`asyncio.create_task`), in creation order. -/
def runPending (o : FailureOracle) (st : ServerState) : ServerState :=
  st.pending.foldl (fun acc sid => cleanup_session sid o acc)
    { st with pending := [] }

/-- One `get_session` call followed by the event loop running the cleanup
task it may have scheduled. -/
def resolveThenDrain (o : FailureOracle) (st : ServerState) (q : Int × String) :
    ServerState :=
  runPending o (get_session q.1 q.2 st)

/-- `get_current_page` (lines 177–181): the active page, or `None` when the
tab list is empty or the cursor is out of range. -/
def get_current_page (s : BrowserSession) : Option Nat :=
  if s.pages ≠ [] ∧ 0 ≤ s.current_page_index ∧
      s.current_page_index < (s.pages.length : Int) then
    s.pages[s.current_page_index.toNat]?
  else none

/-- The state change `_initialize_browser` (lines 66–123) makes to the
session record: allocates playwright/browser/context handles (all tagged
`h`), creates one page (also tagged `h`), resets the cursor and both event
buffers.  The driver-side stealth scripts have no session-state effect. -/
def browser_init (s : BrowserSession) (h : Nat) : BrowserSession :=
  { s with
      playwright_instance := some h
      browser := some h
      context := some h
      pages := [h]
      current_page_index := 0
      console_messages := []
      network_requests := [] }

/-- `browser_open` (lines 220–243): resolves the session; if a browser is
already open, reports so and changes nothing else; otherwise runs
`_initialize_browser`, which also registers the capture listeners for the
initial page (binding page `h` to this session). -/
def browser_open (t : Int) (session_id : String) (h : Nat) (st : ServerState) :
    ServerState × String :=
  let st1 := get_session t session_id st
  match lookupKey session_id st1.sessions with
  | none => (st1, "")
  | some s =>
    if s.browser.isSome then
      (st1, "Browser is already open for session " ++ session_id)
    else
      ({ st1 with
           sessions := updateKey session_id (fun s0 => browser_init s0 h) st1.sessions
           listeners := st1.listeners ++ [(h, session_id)] },
       "Browser opened for session " ++ session_id)

/-- The `close` branch of `browser_tabs` (lines 1056–1069), acting on one
session record: default the index to the cursor, validate
`0 <= index < len(pages)`, pop the page, and clamp the cursor to
`max(0, len(pages) - 1)` when it is `>=` the new length. -/
def tabs_close (s : BrowserSession) (index : Option Int) : BrowserSession × String :=
  let idx := index.getD s.current_page_index
  if 0 ≤ idx ∧ idx < (s.pages.length : Int) then
    let pages1 := s.pages.eraseIdx idx.toNat
    let cpi :=
      if (pages1.length : Int) ≤ s.current_page_index then
        max 0 ((pages1.length : Int) - 1)
      else s.current_page_index
    ({ s with pages := pages1, current_page_index := cpi },
     "Closed tab at index " ++ toString idx)
  else (s, "Invalid tab index: " ++ toString idx)

/-- The `select` branch of `browser_tabs` (lines 1071–1079): requires an
index, validates it, and moves the cursor. -/
def tabs_select (s : BrowserSession) (index : Option Int) : BrowserSession × String :=
  match index with
  | none => (s, "Index required for select action")
  | some idx =>
    if 0 ≤ idx ∧ idx < (s.pages.length : Int) then
      ({ s with current_page_index := idx }, "Selected tab at index " ++ toString idx)
    else (s, "Invalid tab index: " ++ toString idx)

/-- The `create` branch of `browser_tabs` (lines 1041–1054), acting on one
session record: if no browser is open, `browser_open` runs
`_initialize_browser` first (handles tagged `fresh`, one initial page);
then a new page `fresh + 1` is appended and the cursor moves to the new
last index. -/
def tabs_create (s : BrowserSession) (fresh : Nat) : BrowserSession :=
  let opened := if s.browser.isSome then s else browser_init s fresh
  let pages1 := opened.pages ++ [fresh + 1]
  { opened with pages := pages1, current_page_index := (pages1.length : Int) - 1 }

/-- The four actions of the `browser_tabs` tool. -/
inductive TabAction
  | list
  | create
  | close
  | select
deriving DecidableEq

/-- `browser_tabs` (lines 1015–1082).  Resolves the session, then:
`list` reads without mutating; `create` opens the browser first when closed
(which registers listeners for the initial page `fresh`), asks the context
for a new page `fresh + 1`, registers its listeners, appends it and moves
the cursor to the last index; `close` and `select` apply the per-session
transitions above.  The returned string is the tool's reply. -/
def browser_tabs (t : Int) (action : TabAction) (session_id : String)
    (index : Option Int) (fresh : Nat) (st : ServerState) : ServerState × String :=
  let st1 := get_session t session_id st
  match lookupKey session_id st1.sessions with
  | none => (st1, "")
  | some s =>
    match action with
    | .list => (st1, "tab list")
    | .create =>
      let openBindings : List (Nat × String) :=
        if s.browser.isSome then [] else [(fresh, session_id)]
      let s1 := tabs_create s fresh
      let cpi : Int := s1.current_page_index
      ({ st1 with
           sessions := updateKey session_id (fun _ => s1) st1.sessions
           listeners := st1.listeners ++ openBindings ++ [(fresh + 1, session_id)] },
       "Created new tab at index " ++ toString cpi)
    | .close =>
      let r := tabs_close s index
      ({ st1 with sessions := updateKey session_id (fun _ => r.1) st1.sessions }, r.2)
    | .select =>
      let r := tabs_select s index
      ({ st1 with sessions := updateKey session_id (fun _ => r.1) st1.sessions }, r.2)

/-- Result of a page-borrowing tool: either an ordinary reply or the error
dict `{"error": ...}`. -/
inductive ToolResult
  | ok (msg : String)
  | error (msg : String)
deriving DecidableEq

/-- The error value every page-borrowing tool returns when
`get_current_page` yields `None`. -/
def noPageError : String := "No browser page available"

/-- `browser_navigate_back` (lines 280–294), representative of every tool
that borrows the session's active page: resolve the session, fetch the
current page, and return the `"No browser page available"` error when it is
`None` (the driver navigation itself is abstracted). -/
def browser_navigate_back (t : Int) (session_id : String) (st : ServerState) :
    ServerState × ToolResult :=
  let st1 := get_session t session_id st
  match lookupKey session_id st1.sessions with
  | none => (st1, .error noPageError)
  | some s =>
    match get_current_page s with
    | none => (st1, .error noPageError)
    | some _ => (st1, .ok "Navigated back")

/-- The driver fires an event on page `p`: every callback registered for
`p` by `_setup_page_listeners` runs, and each such callback appends into
the buffers of the session it was created for (the closure captured that
session object — here, the bound session id). -/
def deliverEvent (upd : BrowserSession → BrowserSession) (p : Nat)
    (st : ServerState) : ServerState :=
  { st with
      sessions :=
        st.listeners.foldl
          (fun ss b => if b.1 = p then updateKey b.2 upd ss else ss)
          st.sessions }

/-- A console event on page `p`: the console listener of
`_setup_page_listeners` appends the message dict to the owning session's
`console_messages`. -/
def deliverConsole (p : Nat) (m : ConsoleMsg) : ServerState → ServerState :=
  deliverEvent (fun s => { s with console_messages := s.console_messages ++ [m] }) p

/-- A network request event on page `p`: the request listener of
`_setup_page_listeners` appends the request dict to the owning session's
`network_requests`. -/
def deliverNetwork (p : Nat) (r : NetworkReq) : ServerState → ServerState :=
  deliverEvent (fun s => { s with network_requests := s.network_requests ++ [r] }) p

/-- One completed registry or tab-list operation of `session_server.py`. -/
inductive Op
  | resolve (t : Int) (sid : String)
  | openBrowser (t : Int) (sid : String) (h : Nat)
  | tabs (t : Int) (a : TabAction) (sid : String) (index : Option Int) (fresh : Nat)
  | close (sid : String) (o : FailureOracle)
  | sweep (now : Int) (o : FailureOracle)
  | drain (o : FailureOracle)

/-- State transition of one completed operation. -/
def applyOp : Op → ServerState → ServerState
  | .resolve t sid, st => get_session t sid st
  | .openBrowser t sid h, st => (browser_open t sid h st).1
  | .tabs t a sid idx f, st => (browser_tabs t a sid idx f st).1
  | .close sid o, st => cleanup_session sid o st
  | .sweep now o, st => session_cleanup_sweep now o st
  | .drain o, st => runPending o st

/-- The spec's dichotomy for a resident session: fully closed
(`driverHandle == nil`, `tabs` empty) or fully open (`driverHandle != nil`,
`tabs` non-empty).  Stated from the spec's words, to be compared with what
the code maintains. -/
abbrev FullyClosedOrOpen (s : BrowserSession) : Prop :=
  (s.browser = none ∧ s.pages = []) ∨ (s.browser ≠ none ∧ s.pages ≠ [])

/-- The weaker shape the code actually maintains: a session never holds
pages without an allocated browser (but it may hold an allocated browser
with zero pages). -/
abbrev SessionConsistent (s : BrowserSession) : Prop :=
  s.browser = none → s.pages = []

/-- The tab-cursor invariant: whenever the tab list is non-empty,
`0 ≤ current_page_index < len(pages)`. -/
abbrev CursorInv (s : BrowserSession) : Prop :=
  s.pages ≠ [] → 0 ≤ s.current_page_index ∧
    s.current_page_index < (s.pages.length : Int)

/-- Registry well-formedness between operations once all scheduled cleanup
tasks have run: capacity respected, dict keys unique, no task pending. -/
abbrev GoodReg (st : ServerState) : Prop :=
  st.sessions.length ≤ MAX_SESSIONS ∧ (st.sessions.map Prod.fst).Nodup ∧
    st.pending = []

/-! Concrete states used to instantiate the theorems below. -/

/-- An open session `"s"` with driver handles tagged 3 and one page 7. -/
def openSession1 : BrowserSession :=
  { session_id := "s", browser := some 3, context := some 3, pages := [7],
    current_page_index := 0, playwright_instance := some 3 }

/-- A registry holding only the open session `"s"`. -/
def oneOpenState : ServerState :=
  { sessions := [("s", openSession1)], pending := [], listeners := [(7, "s")],
    log := [] }

/-- An environment in which `context.close()` raises. -/
def oracleCtxFail : FailureOracle := { ctxFails := true }

/-- An environment in which every driver release call succeeds. -/
def noFail : FailureOracle := {}

/-- An open session with three tabs and the cursor on the last one. -/
def threeTabSession : BrowserSession :=
  { session_id := "s3", browser := some 4, context := some 4,
    pages := [10, 11, 12], current_page_index := 2,
    playwright_instance := some 4 }

/-- Two open sessions `"a"` (page 7) and `"b"` (page 8) with their capture
listeners bound. -/
def sessA : BrowserSession :=
  { session_id := "a", browser := some 1, context := some 1, pages := [7],
    current_page_index := 0, playwright_instance := some 1 }

/-- The second session of the two-session registry. -/
def sessB : BrowserSession :=
  { session_id := "b", browser := some 2, context := some 2, pages := [8],
    current_page_index := 0, playwright_instance := some 2 }

/-- Registry with sessions `"a"` and `"b"`, pages 7 and 8 bound to their
owners. -/
def twoSessionState : ServerState :=
  { sessions := [("a", sessA), ("b", sessB)], pending := [],
    listeners := [(7, "a"), (8, "b")], log := [] }

/-- A full registry (10 sessions) in which `"t1"` and `"t2"` tie for the
oldest `last_activity` (value 3) and `"t1"` was inserted first. -/
def tieState : ServerState :=
  { sessions :=
      [("t0", newSession "t0" 5), ("t1", newSession "t1" 3),
       ("t2", newSession "t2" 3), ("t3", newSession "t3" 6),
       ("t4", newSession "t4" 7), ("t5", newSession "t5" 8),
       ("t6", newSession "t6" 9), ("t7", newSession "t7" 10),
       ("t8", newSession "t8" 11), ("t9", newSession "t9" 12)],
    pending := [], listeners := [], log := [] }

/-- Registry with one stale session (`last_activity = 0`) and one recently
touched session (`last_activity = 2000`). -/
def reaperState : ServerState :=
  { sessions := [("old", newSession "old" 0), ("fresh", newSession "fresh" 2000)],
    pending := [], listeners := [], log := [] }

/-- Eleven `get_session` calls with distinct fresh ids at times 0..10. -/
def elevenOps : List (Int × String) :=
  [(0, "s0"), (1, "s1"), (2, "s2"), (3, "s3"), (4, "s4"), (5, "s5"), (6, "s6"),
   (7, "s7"), (8, "s8"), (9, "s9"), (10, "s10")]

/-- The registry state immediately after the eleventh `get_session` call
returns, before the event loop has run any scheduled cleanup task. -/
def afterEleven : ServerState :=
  elevenOps.foldl (fun st q => get_session q.1 q.2 st) emptyState

end PwMcp

namespace PwMcp

/-! Association-list lemmas (the dict model). -/

section AssocList

variable {α β : Type} [DecidableEq α]

theorem lookupKey_eq_none {k : α} {l : List (α × β)} :
    lookupKey k l = none ↔ k ∉ l.map Prod.fst := by
  induction l with
  | nil => simp [lookupKey]
  | cons p rest ih =>
    by_cases h : p.1 = k
    · simp [lookupKey, h]
    · simp only [lookupKey, if_neg h, List.map_cons, List.mem_cons, ih]
      constructor
      · rintro hk (rfl | hm)
        · exact h rfl
        · exact hk hm
      · intro hk hm
        exact hk (Or.inr hm)

theorem lookupKey_append_of_none {k : α} {l1 l2 : List (α × β)}
    (h : lookupKey k l1 = none) :
    lookupKey k (l1 ++ l2) = lookupKey k l2 := by
  induction l1 with
  | nil => simp
  | cons p rest ih =>
    by_cases hp : p.1 = k
    · simp [lookupKey, hp] at h
    · simp only [lookupKey, if_neg hp] at h ⊢
      exact ih h

theorem lookupKey_append_of_some {k : α} {l1 l2 : List (α × β)} {v : β}
    (h : lookupKey k l1 = some v) :
    lookupKey k (l1 ++ l2) = some v := by
  induction l1 with
  | nil => simp [lookupKey] at h
  | cons p rest ih =>
    by_cases hp : p.1 = k
    · simp only [lookupKey, if_pos hp] at h ⊢
      exact h
    · simp only [lookupKey, if_neg hp] at h ⊢
      exact ih h

theorem lookupKey_updateKey_self (k : α) (f : β → β) (l : List (α × β)) :
    lookupKey k (updateKey k f l) = (lookupKey k l).map f := by
  induction l with
  | nil => simp [lookupKey, updateKey]
  | cons p rest ih =>
    by_cases hp : p.1 = k
    · simp [lookupKey, updateKey, hp]
    · simp [lookupKey, updateKey, hp, ih]

theorem lookupKey_updateKey_ne {k k' : α} (f : β → β) (l : List (α × β))
    (h : k' ≠ k) : lookupKey k (updateKey k' f l) = lookupKey k l := by
  induction l with
  | nil => simp [updateKey]
  | cons p rest ih =>
    by_cases hp : p.1 = k'
    · have : ¬ p.1 = k := by rw [hp]; exact h
      simp [lookupKey, updateKey, hp, this, h]
    · simp only [updateKey, if_neg hp, lookupKey]
      by_cases hk : p.1 = k
      · simp [hk]
      · simp [hk, ih]

theorem updateKey_map_fst (k : α) (f : β → β) (l : List (α × β)) :
    (updateKey k f l).map Prod.fst = l.map Prod.fst := by
  induction l with
  | nil => simp [updateKey]
  | cons p rest ih =>
    by_cases hp : p.1 = k
    · simp [updateKey, hp]
    · simp [updateKey, hp, ih]

theorem updateKey_length (k : α) (f : β → β) (l : List (α × β)) :
    (updateKey k f l).length = l.length := by
  induction l with
  | nil => simp [updateKey]
  | cons p rest ih =>
    by_cases hp : p.1 = k
    · simp [updateKey, hp]
    · simp [updateKey, hp, ih]

theorem updateKey_append_fresh {k : α} (f : β → β) {l : List (α × β)} (x : β)
    (h : lookupKey k l = none) :
    updateKey k f (l ++ [(k, x)]) = l ++ [(k, f x)] := by
  induction l with
  | nil => simp [updateKey]
  | cons p rest ih =>
    by_cases hp : p.1 = k
    · simp [lookupKey, hp] at h
    · simp only [lookupKey, if_neg hp] at h
      simp [updateKey, hp, ih h]

theorem eraseKey_of_none {k : α} {l : List (α × β)}
    (h : lookupKey k l = none) : eraseKey k l = l := by
  induction l with
  | nil => simp [eraseKey]
  | cons p rest ih =>
    by_cases hp : p.1 = k
    · simp [lookupKey, hp] at h
    · simp only [lookupKey, if_neg hp] at h
      simp [eraseKey, hp, ih h]

theorem lookupKey_eraseKey_ne {k k' : α} {l : List (α × β)} (h : k' ≠ k) :
    lookupKey k (eraseKey k' l) = lookupKey k l := by
  induction l with
  | nil => simp [eraseKey]
  | cons p rest ih =>
    by_cases hp : p.1 = k'
    · have : ¬ p.1 = k := by rw [hp]; exact h
      simp [eraseKey, lookupKey, hp, this, h]
    · simp only [eraseKey, if_neg hp, lookupKey]
      by_cases hk : p.1 = k
      · simp [hk]
      · simp [hk, ih]

theorem lookupKey_eraseKey_none {k k' : α} {l : List (α × β)}
    (h : lookupKey k l = none) : lookupKey k (eraseKey k' l) = none := by
  induction l with
  | nil => simp [eraseKey, lookupKey]
  | cons p rest ih =>
    by_cases hk : p.1 = k
    · simp [lookupKey, hk] at h
    · simp only [lookupKey, if_neg hk] at h
      by_cases hp : p.1 = k'
      · simp only [eraseKey, if_pos hp]
        exact h
      · simp only [eraseKey, if_neg hp, lookupKey, if_neg hk]
        exact ih h

theorem eraseKey_map_fst_sublist (k : α) (l : List (α × β)) :
    ((eraseKey k l).map Prod.fst).Sublist (l.map Prod.fst) := by
  induction l with
  | nil => simp [eraseKey]
  | cons p rest ih =>
    by_cases hp : p.1 = k
    · simp only [eraseKey, if_pos hp, List.map_cons]
      exact (List.sublist_cons_self _ _)
    · simp only [eraseKey, if_neg hp, List.map_cons]
      exact ih.cons₂ _

theorem eraseKey_nodup {k : α} {l : List (α × β)}
    (h : (l.map Prod.fst).Nodup) : ((eraseKey k l).map Prod.fst).Nodup :=
  (eraseKey_map_fst_sublist k l).nodup h

theorem lookupKey_eraseKey_self {k : α} {l : List (α × β)}
    (h : (l.map Prod.fst).Nodup) : lookupKey k (eraseKey k l) = none := by
  induction l with
  | nil => simp [eraseKey, lookupKey]
  | cons p rest ih =>
    simp only [List.map_cons, List.nodup_cons] at h
    by_cases hp : p.1 = k
    · simp only [eraseKey, if_pos hp]
      rw [lookupKey_eq_none]
      rw [hp] at h
      exact h.1
    · simp only [eraseKey, if_neg hp, lookupKey, if_neg hp]
      exact ih h.2

theorem eraseKey_length_of_some {k : α} {l : List (α × β)} {v : β}
    (h : lookupKey k l = some v) : (eraseKey k l).length + 1 = l.length := by
  induction l with
  | nil => simp [lookupKey] at h
  | cons p rest ih =>
    by_cases hp : p.1 = k
    · simp [eraseKey, hp]
    · simp only [lookupKey, if_neg hp] at h
      simp [eraseKey, hp, ih h]

theorem mem_of_mem_eraseKey {k : α} {l : List (α × β)} {p : α × β}
    (h : p ∈ eraseKey k l) : p ∈ l := by
  induction l with
  | nil => simp [eraseKey] at h
  | cons q rest ih =>
    by_cases hq : q.1 = k
    · simp only [eraseKey, if_pos hq] at h
      exact List.mem_cons_of_mem _ h
    · simp only [eraseKey, if_neg hq, List.mem_cons] at h
      rcases h with rfl | h
      · exact List.mem_cons_self _ _
      · exact List.mem_cons_of_mem _ (ih h)

theorem mem_updateKey {k : α} {f : β → β} {l : List (α × β)} {p : α × β}
    (h : p ∈ updateKey k f l) : p ∈ l ∨ ∃ q, q ∈ l ∧ p = (q.1, f q.2) := by
  induction l with
  | nil => simp [updateKey] at h
  | cons q rest ih =>
    by_cases hq : q.1 = k
    · simp only [updateKey, if_pos hq, List.mem_cons] at h
      rcases h with rfl | h
      · exact Or.inr ⟨q, List.mem_cons_self _ _, rfl⟩
      · exact Or.inl (List.mem_cons_of_mem _ h)
    · simp only [updateKey, if_neg hq, List.mem_cons] at h
      rcases h with rfl | h
      · exact Or.inl (List.mem_cons_self _ _)
      · rcases ih h with h' | ⟨r, hr, rfl⟩
        · exact Or.inl (List.mem_cons_of_mem _ h')
        · exact Or.inr ⟨r, List.mem_cons_of_mem _ hr, rfl⟩

theorem lookupKey_mem {k : α} {l : List (α × β)} {v : β}
    (h : lookupKey k l = some v) : (k, v) ∈ l := by
  induction l with
  | nil => simp [lookupKey] at h
  | cons p rest ih =>
    by_cases hp : p.1 = k
    · simp only [lookupKey, if_pos hp, Option.some.injEq] at h
      subst h
      rw [← hp]
      exact List.mem_cons_self _ _
    · simp only [lookupKey, if_neg hp] at h
      exact List.mem_cons_of_mem _ (ih h)

theorem lookupKey_of_mem_nodup {k : α} {l : List (α × β)} {v : β}
    (hnd : (l.map Prod.fst).Nodup) (h : (k, v) ∈ l) :
    lookupKey k l = some v := by
  induction l with
  | nil => simp at h
  | cons p rest ih =>
    simp only [List.map_cons, List.nodup_cons] at hnd
    rcases List.mem_cons.1 h with rfl | h
    · simp [lookupKey]
    · have hp : ¬ p.1 = k := by
        intro hk
        exact hnd.1 (hk ▸ (List.mem_map.2 ⟨(k, v), h, rfl⟩))
      simp only [lookupKey, if_neg hp]
      exact ih hnd.2 h

theorem lookupKey_isSome_of_mem_fst {k : α} {l : List (α × β)}
    (h : k ∈ l.map Prod.fst) : ∃ v, lookupKey k l = some v := by
  cases hv : lookupKey k l with
  | none => exact absurd (lookupKey_eq_none.1 hv) (fun hn => hn h)
  | some v => exact ⟨v, rfl⟩

end AssocList

end PwMcp

namespace PwMcp

/-! Characterization of Python's `min` over the registry. -/

/-- `pyMinEntry` returns an entry of minimal `last_activity`, and every
entry inserted strictly before it has strictly greater `last_activity`
(so among ties, the earliest-inserted entry is chosen). -/
theorem pyMinEntry_spec (l : List (String × BrowserSession)) (hne : l ≠ []) :
    ∃ e l1 l2, pyMinEntry l = some e ∧ l = l1 ++ e :: l2 ∧
      (∀ p ∈ l, e.2.last_activity ≤ p.2.last_activity) ∧
      (∀ p ∈ l1, e.2.last_activity < p.2.last_activity) := by
  induction l with
  | nil => exact absurd rfl hne
  | cons p rest ih =>
    by_cases hrne : rest = []
    · subst hrne
      refine ⟨p, [], [], by simp [pyMinEntry], by simp, ?_, by simp⟩
      intro q hq
      simp only [List.mem_singleton] at hq
      subst hq
      exact le_refl _
    · obtain ⟨e, l1, l2, hmin, hsplit, hle, hlt⟩ := ih hrne
      by_cases hcmp : e.2.last_activity < p.2.last_activity
      · refine ⟨e, p :: l1, l2, ?_, by rw [List.cons_append, ← hsplit], ?_, ?_⟩
        · simp [pyMinEntry, hmin, hcmp]
        · intro q hq
          rcases List.mem_cons.1 hq with rfl | hq
          · exact le_of_lt hcmp
          · exact hle q hq
        · intro q hq
          rcases List.mem_cons.1 hq with rfl | hq
          · exact hcmp
          · exact hlt q hq
      · refine ⟨p, [], rest, ?_, by simp, ?_, by simp⟩
        · simp [pyMinEntry, hmin, hcmp]
        · intro q hq
          rcases List.mem_cons.1 hq with rfl | hq
          · exact le_refl _
          · exact le_trans (not_lt.1 hcmp) (hle q hq)

/-- A non-empty registry always has a `min` entry. -/
theorem pyMinEntry_isSome (l : List (String × BrowserSession)) (hne : l ≠ []) :
    ∃ e, pyMinEntry l = some e := by
  obtain ⟨e, _, _, hmin, _, _, _⟩ := pyMinEntry_spec l hne
  exact ⟨e, hmin⟩

/-! Shape lemmas for `get_session` and `cleanup_session`. -/

/-- Resolving a resident id only bumps its `last_activity`. -/
theorem get_session_present {t : Int} {sid : String} {st : ServerState}
    {s : BrowserSession} (h : lookupKey sid st.sessions = some s) :
    get_session t sid st =
      { st with
          sessions :=
            updateKey sid (fun s0 => { s0 with last_activity := t }) st.sessions } := by
  unfold get_session
  rw [if_neg (by simp [h])]

/-- Resolving a fresh id below capacity appends a fresh closed session. -/
theorem get_session_new {t : Int} {sid : String} {st : ServerState}
    (h : lookupKey sid st.sessions = none)
    (hcap : st.sessions.length < MAX_SESSIONS) :
    get_session t sid st =
      { st with sessions := st.sessions ++ [(sid, newSession sid t)] } := by
  unfold get_session
  rw [if_pos h, if_neg (not_le.2 hcap)]
  simp only
  rw [updateKey_append_fresh _ _ h]
  simp [newSession]

/-- Resolving a fresh id at (or beyond) capacity schedules a cleanup task
for the `min`-chosen entry and then appends the fresh session anyway. -/
theorem get_session_full {t : Int} {sid : String} {st : ServerState}
    {e : String × BrowserSession}
    (h : lookupKey sid st.sessions = none)
    (hcap : MAX_SESSIONS ≤ st.sessions.length)
    (hmin : pyMinEntry st.sessions = some e) :
    get_session t sid st =
      { st with
          sessions := st.sessions ++ [(sid, newSession sid t)],
          pending := st.pending ++ [e.1] } := by
  unfold get_session
  rw [if_pos h, if_pos hcap, hmin]
  simp only
  rw [updateKey_append_fresh _ _ h]
  simp [newSession]

/-- `cleanup_session` never touches `pending` or `listeners`, and its
effect on the registry is exactly the removal of the entry. -/
theorem cleanup_session_sessions (sid : String) (o : FailureOracle)
    (st : ServerState) :
    (cleanup_session sid o st).sessions = eraseKey sid st.sessions ∧
    (cleanup_session sid o st).pending = st.pending ∧
    (cleanup_session sid o st).listeners = st.listeners := by
  unfold cleanup_session
  cases h : lookupKey sid st.sessions with
  | none =>
    exact ⟨(eraseKey_of_none h).symm, rfl, rfl⟩
  | some s =>
    cases hr : (runReleaseSteps s o).2 with
    | none => simp [hr]
    | some stp => simp [hr]

/-- Folding `cleanup_session` over a list of ids erases exactly those keys
(projection of the sweep / pending-task loops to the registry). -/
theorem foldl_cleanup_sessions (o : FailureOracle) (ks : List String)
    (st : ServerState) :
    ((ks.foldl (fun acc sid => cleanup_session sid o acc) st).sessions) =
      ks.foldl (fun a k => eraseKey k a) st.sessions := by
  induction ks generalizing st with
  | nil => rfl
  | cons k ks ih =>
    simp only [List.foldl_cons]
    rw [ih, (cleanup_session_sessions k o st).1]

/-- A key absent from the registry stays absent under any erase fold. -/
theorem lookupKey_foldl_erase_of_none {k : String} {ks : List String}
    {ss : List (String × BrowserSession)} (h : lookupKey k ss = none) :
    lookupKey k (ks.foldl (fun a k' => eraseKey k' a) ss) = none := by
  induction ks generalizing ss with
  | nil => simpa using h
  | cons k' ks ih =>
    simp only [List.foldl_cons]
    exact ih (lookupKey_eraseKey_none h)

/-- After erasing every key in `ks`, a key in `ks` is gone (keys unique). -/
theorem lookupKey_foldl_erase_mem {k : String} {ks : List String}
    {ss : List (String × BrowserSession)}
    (hnd : (ss.map Prod.fst).Nodup) (hk : k ∈ ks) :
    lookupKey k (ks.foldl (fun a k' => eraseKey k' a) ss) = none := by
  induction ks generalizing ss with
  | nil => simp at hk
  | cons k' ks ih =>
    simp only [List.foldl_cons]
    rcases List.mem_cons.1 hk with rfl | hk
    · exact lookupKey_foldl_erase_of_none (lookupKey_eraseKey_self hnd)
    · exact ih (eraseKey_nodup hnd) hk

/-- Erasing keys other than `k` does not disturb `k`'s entry. -/
theorem lookupKey_foldl_erase_not_mem {k : String} {ks : List String}
    {ss : List (String × BrowserSession)} (hk : k ∉ ks) :
    lookupKey k (ks.foldl (fun a k' => eraseKey k' a) ss) = lookupKey k ss := by
  induction ks generalizing ss with
  | nil => rfl
  | cons k' ks ih =>
    simp only [List.foldl_cons]
    have hne : k' ≠ k := fun he => hk (he ▸ List.mem_cons_self _ _)
    rw [ih (fun h => hk (List.mem_cons_of_mem _ h)), lookupKey_eraseKey_ne hne]

end PwMcp

namespace PwMcp

/-- The entry chosen by Python's `min` is one of the registry's entries. -/
theorem pyMinEntry_mem {l : List (String × BrowserSession)}
    {e : String × BrowserSession} (h : pyMinEntry l = some e) : e ∈ l := by
  induction l with
  | nil => simp [pyMinEntry] at h
  | cons p rest ih =>
    simp only [pyMinEntry] at h
    cases hr : pyMinEntry rest with
    | none =>
      simp only [hr] at h
      injection h with h
      subst h
      exact List.mem_cons_self _ _
    | some q =>
      simp only [hr] at h
      by_cases hc : q.2.last_activity < p.2.last_activity
      · rw [if_pos hc] at h
        injection h with h
        subst h
        exact List.mem_cons_of_mem _ (ih hr)
      · rw [if_neg hc] at h
        injection h with h
        subst h
        exact List.mem_cons_self _ _

/-- One resolve followed by the event loop running its scheduled cleanup
task (if any) preserves registry well-formedness, in particular the
capacity bound. -/
theorem goodReg_resolveThenDrain (o : FailureOracle) (st : ServerState)
    (q : Int × String) (h : GoodReg st) : GoodReg (resolveThenDrain o st q) := by
  obtain ⟨hlen, hnd, hpend⟩ := h
  unfold resolveThenDrain
  by_cases hmem : lookupKey q.2 st.sessions = none
  · by_cases hcap : MAX_SESSIONS ≤ st.sessions.length
    · have hne : st.sessions ≠ [] := by
        intro h0
        rw [h0] at hcap
        simp [MAX_SESSIONS] at hcap
      obtain ⟨e, hminE⟩ := pyMinEntry_isSome _ hne
      have hemem : e.1 ∈ st.sessions.map Prod.fst :=
        List.mem_map.2 ⟨e, pyMinEntry_mem hminE, rfl⟩
      rw [get_session_full hmem hcap hminE]
      unfold runPending
      rw [hpend]
      simp only [List.nil_append, List.foldl_cons, List.foldl_nil]
      have hkeys :
          ((st.sessions ++ [(q.2, newSession q.2 q.1)]).map Prod.fst).Nodup := by
        rw [List.map_append]
        simp only [List.map_cons, List.map_nil]
        rw [List.nodup_append]
        refine ⟨hnd, List.nodup_singleton _, ?_⟩
        intro a ha
        simp only [List.mem_singleton]
        intro hq
        subst hq
        exact (lookupKey_eq_none.1 hmem) ha
      obtain ⟨v, hv⟩ : ∃ v,
          lookupKey e.1 (st.sessions ++ [(q.2, newSession q.2 q.1)]) = some v :=
        lookupKey_isSome_of_mem_fst (by rw [List.map_append]; exact List.mem_append_left _ hemem)
      refine ⟨?_, ?_, ?_⟩
      · rw [(cleanup_session_sessions e.1 o _).1]
        dsimp only
        have := eraseKey_length_of_some hv
        simp only [List.length_append, List.length_cons, List.length_nil] at this
        omega
      · rw [(cleanup_session_sessions e.1 o _).1]
        dsimp only
        exact eraseKey_nodup hkeys
      · rw [(cleanup_session_sessions e.1 o _).2.1]
    · rw [get_session_new hmem (not_le.1 hcap)]
      unfold runPending
      rw [hpend]
      simp only [List.foldl_nil]
      refine ⟨?_, ?_, rfl⟩
      · simp only [List.length_append, List.length_cons, List.length_nil]
        omega
      · rw [List.map_append]
        simp only [List.map_cons, List.map_nil]
        rw [List.nodup_append]
        refine ⟨hnd, List.nodup_singleton _, ?_⟩
        intro a ha
        simp only [List.mem_singleton]
        intro hq
        subst hq
        exact (lookupKey_eq_none.1 hmem) ha
  · obtain ⟨s, hsome⟩ : ∃ s, lookupKey q.2 st.sessions = some s := by
      cases hh : lookupKey q.2 st.sessions with
      | none => exact absurd hh hmem
      | some s => exact ⟨s, rfl⟩
    rw [get_session_present hsome]
    unfold runPending
    rw [hpend]
    simp only [List.foldl_nil]
    refine ⟨?_, ?_, rfl⟩
    · rw [updateKey_length]
      exact hlen
    · rw [updateKey_map_fst]
      exact hnd

/-- Registry well-formedness is preserved along any sequence of
resolve-then-drain steps. -/
theorem goodReg_foldl (o : FailureOracle) (ops : List (Int × String))
    (st : ServerState) (h : GoodReg st) :
    GoodReg (ops.foldl (resolveThenDrain o) st) := by
  induction ops generalizing st with
  | nil => exact h
  | cons q ops ih =>
    simp only [List.foldl_cons]
    exact ih _ (goodReg_resolveThenDrain o st q h)

end PwMcp

namespace PwMcp

/-- C1 (counterexample): starting from an empty registry, eleven `resolve`
calls with fresh ids leave the registry holding 11 entries — strictly more
than `MAX_SESSIONS = 10` — at the moment the eleventh call returns.  The
eviction of the least-recently-active session `"s0"` was only scheduled
(`asyncio.create_task`), not completed: `"s0"` is still resident while the
new entry is already installed, so the `len(sessions) ≤ capacity` invariant
is violated and the overshoot is real. -/
theorem c1_overshoot_counterexample :
    MAX_SESSIONS < afterEleven.sessions.length ∧
    afterEleven.pending = ["s0"] ∧
    lookupKey "s0" afterEleven.sessions = some (newSession "s0" 0) := by decide

/-- C1 (amended): the capacity bound `len(sessions) ≤ MAX_SESSIONS` holds
after each `resolve` call *once the cleanup task it scheduled has been run
by the event loop* — not at the moment the call itself returns.  For every
sequence of resolve-then-drain steps from the initial empty registry, the
bound holds after every step (any prefix of `ops` is itself such a
sequence), whatever the failure behaviour of the driver during the
evictions. -/
theorem c1_capacity_after_drain (ops : List (Int × String)) (o : FailureOracle) :
    (ops.foldl (resolveThenDrain o) emptyState).sessions.length ≤ MAX_SESSIONS :=
  (goodReg_foldl o ops emptyState
    ⟨by simp [emptyState, MAX_SESSIONS], by simp [emptyState], rfl⟩).1

/-- C4 (counterexample): `cleanup_session` wraps all three release steps in
one shared `try` block, so when `context.close()` raises on an open session,
neither `browser.close()` nor `playwright.stop()` is attempted — the claim
that each step is individually guarded is false. -/
theorem c4_single_guard_counterexample :
    (runReleaseSteps openSession1 oracleCtxFail).2 = some ReleaseStep.closeContext ∧
    ReleaseStep.closeBrowser ∉ (runReleaseSteps openSession1 oracleCtxFail).1 ∧
    ReleaseStep.stopDriver ∉ (runReleaseSteps openSession1 oracleCtxFail).1 := by
  decide

/-- C4 (amended): the three release steps of an open session run inside a
single shared guard: the steps attempted are exactly the prefix of
(close context, close browser, stop driver) ending at the first failing
step, so a failure in an earlier step skips the remaining ones; the failure
is caught rather than propagated and the registry entry is removed
regardless. -/
theorem c4_release_cascade_amended (s : BrowserSession) (o : FailureOracle)
    (sid : String) (st : ServerState)
    (hb : s.browser.isSome = true) (hpw : s.playwright_instance.isSome = true)
    (hnd : (st.sessions.map Prod.fst).Nodup) :
    (o.ctxFails = true →
      runReleaseSteps s o =
        ([ReleaseStep.closeContext], some ReleaseStep.closeContext)) ∧
    (o.ctxFails = false → o.browserFails = true →
      runReleaseSteps s o =
        ([ReleaseStep.closeContext, ReleaseStep.closeBrowser],
         some ReleaseStep.closeBrowser)) ∧
    (o.ctxFails = false → o.browserFails = false → o.stopFails = true →
      runReleaseSteps s o =
        ([ReleaseStep.closeContext, ReleaseStep.closeBrowser,
          ReleaseStep.stopDriver], some ReleaseStep.stopDriver)) ∧
    (o.ctxFails = false → o.browserFails = false → o.stopFails = false →
      runReleaseSteps s o =
        ([ReleaseStep.closeContext, ReleaseStep.closeBrowser,
          ReleaseStep.stopDriver], none)) ∧
    lookupKey sid (cleanup_session sid o st).sessions = none := by
  refine ⟨?_, ?_, ?_, ?_, ?_⟩
  · intro h1
    simp [runReleaseSteps, hb, h1]
  · intro h1 h2
    simp [runReleaseSteps, hb, h1, h2]
  · intro h1 h2 h3
    simp [runReleaseSteps, hb, hpw, h1, h2, h3]
  · intro h1 h2 h3
    simp [runReleaseSteps, hb, hpw, h1, h2, h3]
  · rw [(cleanup_session_sessions sid o st).1]
    exact lookupKey_eraseKey_self hnd

/-- C4 witness: the amended statement instantiated on the registry holding
the single open session `"s"` with a failing `context.close()`. -/
theorem c4_release_cascade_amended_witness :
    (oracleCtxFail.ctxFails = true →
      runReleaseSteps openSession1 oracleCtxFail =
        ([ReleaseStep.closeContext], some ReleaseStep.closeContext)) ∧
    (oracleCtxFail.ctxFails = false → oracleCtxFail.browserFails = true →
      runReleaseSteps openSession1 oracleCtxFail =
        ([ReleaseStep.closeContext, ReleaseStep.closeBrowser],
         some ReleaseStep.closeBrowser)) ∧
    (oracleCtxFail.ctxFails = false → oracleCtxFail.browserFails = false →
      oracleCtxFail.stopFails = true →
      runReleaseSteps openSession1 oracleCtxFail =
        ([ReleaseStep.closeContext, ReleaseStep.closeBrowser,
          ReleaseStep.stopDriver], some ReleaseStep.stopDriver)) ∧
    (oracleCtxFail.ctxFails = false → oracleCtxFail.browserFails = false →
      oracleCtxFail.stopFails = false →
      runReleaseSteps openSession1 oracleCtxFail =
        ([ReleaseStep.closeContext, ReleaseStep.closeBrowser,
          ReleaseStep.stopDriver], none)) ∧
    lookupKey "s" (cleanup_session "s" oracleCtxFail oneOpenState).sessions = none :=
  c4_release_cascade_amended openSession1 oracleCtxFail "s" oneOpenState
    (by decide) (by decide) (by decide)

/-- C5: for a resident session, `cleanup_session` always removes the entry
from the registry — under every possible failure pattern of the driver
release calls (the `finally` clause runs unconditionally) — and when a
release step does raise, the failure is recorded in the log (the `except`
clause prints it) instead of propagating: `cleanup_session` is a total
function back into `ServerState`, never an exceptional result. -/
theorem c5_cleanup_removes_entry (sid : String) (o : FailureOracle)
    (st : ServerState) (s : BrowserSession)
    (hnd : (st.sessions.map Prod.fst).Nodup)
    (hs : lookupKey sid st.sessions = some s) :
    lookupKey sid (cleanup_session sid o st).sessions = none ∧
    (∀ stp, (runReleaseSteps s o).2 = some stp →
      (cleanup_session sid o st).log = st.log ++ [cleanupErrorLog sid]) := by
  constructor
  · rw [(cleanup_session_sessions sid o st).1]
    exact lookupKey_eraseKey_self hnd
  · intro stp hstp
    unfold cleanup_session
    rw [hs]
    simp [hstp]

/-- C5 witness: the open session `"s"` is removed and the teardown failure
logged when `context.close()` raises. -/
theorem c5_cleanup_removes_entry_witness :
    lookupKey "s" (cleanup_session "s" oracleCtxFail oneOpenState).sessions = none ∧
    (∀ stp, (runReleaseSteps openSession1 oracleCtxFail).2 = some stp →
      (cleanup_session "s" oracleCtxFail oneOpenState).log =
        oneOpenState.log ++ [cleanupErrorLog "s"]) :=
  c5_cleanup_removes_entry "s" oracleCtxFail oneOpenState openSession1
    (by decide) (by decide)

/-- C6: when `resolve` sees a fresh id with the registry at capacity, the
session it selects for eviction (the id whose cleanup task is scheduled) is
one of minimal `last_activity` among the resident sessions, and every
session inserted earlier than it has strictly greater `last_activity` — so
on ties the earliest-inserted session is selected. -/
theorem c6_eviction_selects_lru (t : Int) (sid : String) (st : ServerState)
    (habs : lookupKey sid st.sessions = none)
    (hcap : MAX_SESSIONS ≤ st.sessions.length) :
    ∃ e l1 l2,
      pyMinEntry st.sessions = some e ∧
      (get_session t sid st).pending = st.pending ++ [e.1] ∧
      st.sessions = l1 ++ e :: l2 ∧
      (∀ p ∈ st.sessions, e.2.last_activity ≤ p.2.last_activity) ∧
      (∀ p ∈ l1, e.2.last_activity < p.2.last_activity) := by
  have hne : st.sessions ≠ [] := by
    intro h0
    rw [h0] at hcap
    simp [MAX_SESSIONS] at hcap
  obtain ⟨e, l1, l2, hmin, hsplit, hle, hlt⟩ := pyMinEntry_spec st.sessions hne
  refine ⟨e, l1, l2, hmin, ?_, hsplit, hle, hlt⟩
  rw [get_session_full habs hcap hmin]

/-- C6 witness: in the full registry where `"t1"` and `"t2"` tie for the
oldest `last_activity` and `"t1"` was inserted first, resolving the fresh
id `"new"` schedules the eviction of exactly `"t1"`. -/
theorem c6_eviction_selects_lru_witness :
    (∃ e l1 l2,
      pyMinEntry tieState.sessions = some e ∧
      (get_session 99 "new" tieState).pending = tieState.pending ++ [e.1] ∧
      tieState.sessions = l1 ++ e :: l2 ∧
      (∀ p ∈ tieState.sessions, e.2.last_activity ≤ p.2.last_activity) ∧
      (∀ p ∈ l1, e.2.last_activity < p.2.last_activity)) ∧
    (get_session 99 "new" tieState).pending = ["t1"] :=
  ⟨c6_eviction_selects_lru 99 "new" tieState (by decide) (by decide), by decide⟩

/-- C8: closing is idempotent.  Closing an id that is not resident returns
the success message and leaves the state exactly unchanged; and for any
state, a second `browser_close` immediately after a first one is a no-op
that again returns the success message — it never errors. -/
theorem c8_close_idempotent (sid : String) (o o2 : FailureOracle)
    (st st2 : ServerState)
    (hunknown : lookupKey sid st.sessions = none)
    (hnd2 : (st2.sessions.map Prod.fst).Nodup) :
    browser_close sid o st =
      (st, "Browser closed and resources cleaned up for session " ++ sid) ∧
    browser_close sid o2 (browser_close sid o st2).1 =
      ((browser_close sid o st2).1,
       "Browser closed and resources cleaned up for session " ++ sid) := by
  constructor
  · unfold browser_close cleanup_session
    rw [hunknown]
  · have h2 : lookupKey sid (cleanup_session sid o st2).sessions = none := by
      rw [(cleanup_session_sessions sid o st2).1]
      exact lookupKey_eraseKey_self hnd2
    simp only [browser_close]
    rw [Prod.mk.injEq]
    refine ⟨?_, rfl⟩
    generalize hX : cleanup_session sid o st2 = X at h2 ⊢
    unfold cleanup_session
    rw [h2]

/-- C8 witness: closing the unknown id `"x"` on the empty registry is a
no-op, and a double close of the resident open session `"s"` succeeds both
times with the second call changing nothing. -/
theorem c8_close_idempotent_witness :
    browser_close "s" noFail emptyState =
      (emptyState, "Browser closed and resources cleaned up for session " ++ "s") ∧
    browser_close "s" noFail (browser_close "s" noFail oneOpenState).1 =
      ((browser_close "s" noFail oneOpenState).1,
       "Browser closed and resources cleaned up for session " ++ "s") :=
  c8_close_idempotent "s" noFail noFail emptyState oneOpenState
    (by decide) (by decide)

/-- C9: after one sweep of the idle reaper, a resident session whose
inactivity `now - last_activity` strictly exceeds `SESSION_TIMEOUT` at
snapshot time is absent from the registry, and a resident session whose
inactivity does not exceed `SESSION_TIMEOUT` is still present, unchanged. -/
theorem c9_reaper_sweep (now : Int) (o : FailureOracle) (st : ServerState)
    (sid : String) (s : BrowserSession)
    (hnd : (st.sessions.map Prod.fst).Nodup)
    (hs : lookupKey sid st.sessions = some s) :
    (SESSION_TIMEOUT < now - s.last_activity →
      lookupKey sid (session_cleanup_sweep now o st).sessions = none) ∧
    (¬ SESSION_TIMEOUT < now - s.last_activity →
      lookupKey sid (session_cleanup_sweep now o st).sessions = some s) := by
  have hsw : (session_cleanup_sweep now o st).sessions =
      ((st.sessions.filter fun p =>
          SESSION_TIMEOUT < now - p.2.last_activity).map Prod.fst).foldl
        (fun a k => eraseKey k a) st.sessions := by
    unfold session_cleanup_sweep
    exact foldl_cleanup_sessions o _ st
  constructor
  · intro hstale
    rw [hsw]
    apply lookupKey_foldl_erase_mem hnd
    exact List.mem_map.2
      ⟨(sid, s), List.mem_filter.2 ⟨lookupKey_mem hs, by simpa using hstale⟩, rfl⟩
  · intro hfreshh
    rw [hsw]
    rw [lookupKey_foldl_erase_not_mem ?notmem]
    · exact hs
    case notmem =>
      intro hmem
      obtain ⟨a, hmemf, hfst⟩ := List.mem_map.1 hmem
      obtain ⟨hmem2, hpred⟩ := List.mem_filter.1 hmemf
      obtain ⟨k, v⟩ := a
      simp only at hfst
      subst hfst
      have hv := lookupKey_of_mem_nodup hnd hmem2
      rw [hs] at hv
      injection hv with hveq
      subst hveq
      exact hfreshh (by simpa using hpred)

/-- C9 witness: at `now = 1900` the session `"old"` (idle 1900 s) is reaped
while `"fresh"` (touched at 2000) survives unchanged. -/
theorem c9_reaper_sweep_witness :
    lookupKey "old" (session_cleanup_sweep 1900 noFail reaperState).sessions =
      none ∧
    lookupKey "fresh" (session_cleanup_sweep 1900 noFail reaperState).sessions =
      some (newSession "fresh" 2000) :=
  ⟨(c9_reaper_sweep 1900 noFail reaperState "old" (newSession "old" 0)
      (by decide) (by decide)).1 (by decide),
   (c9_reaper_sweep 1900 noFail reaperState "fresh" (newSession "fresh" 2000)
      (by decide) (by decide)).2 (by decide)⟩

end PwMcp

namespace PwMcp

/-! Event-delivery lemmas for the listener binding table. -/

/-- Firing the callbacks of a page that none of the bindings in `L` listen
to leaves the registry untouched. -/
theorem deliverEvent_fold_skip (upd : BrowserSession → BrowserSession)
    (p : Nat) (L : List (Nat × String))
    (ss : List (String × BrowserSession))
    (h : ∀ b ∈ L, b.1 ≠ p) :
    L.foldl (fun ss b => if b.1 = p then updateKey b.2 upd ss else ss) ss = ss := by
  induction L generalizing ss with
  | nil => rfl
  | cons b L ih =>
    simp only [List.foldl_cons]
    rw [if_neg (h b (List.mem_cons_self _ _)),
      ih ss (fun b hb => h b (List.mem_cons_of_mem _ hb))]

/-- Sessions that own none of page `p`'s bindings keep their entry
unchanged under delivery. -/
theorem deliverEvent_fold_other (upd : BrowserSession → BrowserSession)
    (p : Nat) (t : String) (L : List (Nat × String))
    (ss : List (String × BrowserSession))
    (h : ∀ b ∈ L, b.1 = p → b.2 ≠ t) :
    lookupKey t
        (L.foldl (fun ss b => if b.1 = p then updateKey b.2 upd ss else ss) ss) =
      lookupKey t ss := by
  induction L generalizing ss with
  | nil => rfl
  | cons b L ih =>
    simp only [List.foldl_cons]
    by_cases hb : b.1 = p
    · rw [if_pos hb,
        ih (updateKey b.2 upd ss) (fun b hb' => h b (List.mem_cons_of_mem _ hb')),
        lookupKey_updateKey_ne upd ss (h b (List.mem_cons_self _ _) hb)]
    · rw [if_neg hb]
      exact ih ss (fun b hb' => h b (List.mem_cons_of_mem _ hb'))

/-- When page `p` is bound exactly once, to session `s`, delivering an
event applies the buffer update to `s` and to nothing else. -/
theorem deliverEvent_spec (upd : BrowserSession → BrowserSession) (p : Nat)
    (s : String) (st : ServerState) (L1 L2 : List (Nat × String))
    (sess : BrowserSession)
    (hsplit : st.listeners = L1 ++ (p, s) :: L2)
    (h1 : ∀ b ∈ L1, b.1 ≠ p) (h2 : ∀ b ∈ L2, b.1 ≠ p)
    (hsess : lookupKey s st.sessions = some sess) :
    (∀ t, t ≠ s →
      lookupKey t (deliverEvent upd p st).sessions = lookupKey t st.sessions) ∧
    lookupKey s (deliverEvent upd p st).sessions = some (upd sess) := by
  have hfold : (deliverEvent upd p st).sessions =
      L2.foldl (fun ss b => if b.1 = p then updateKey b.2 upd ss else ss)
        (updateKey s upd st.sessions) := by
    unfold deliverEvent
    rw [hsplit, List.foldl_append]
    rw [deliverEvent_fold_skip upd p L1 st.sessions h1]
    simp only [List.foldl_cons, if_true]
  constructor
  · intro t ht
    rw [hfold,
      deliverEvent_fold_other upd p t L2 _
        (fun b hb hbp => absurd hbp (h2 b hb)),
      lookupKey_updateKey_ne upd st.sessions (Ne.symm ht)]
  · rw [hfold,
      deliverEvent_fold_other upd p s L2 _
        (fun b hb hbp => absurd hbp (h2 b hb)),
      lookupKey_updateKey_self s upd st.sessions, hsess]
    rfl

end PwMcp

namespace PwMcp

/-- C2: console and network events captured for a page `p` whose listeners
were registered for session `s` (`_setup_page_listeners`) are appended only
to `s`'s `console_messages` / `network_requests` buffers; the entry of
every other session `t ≠ s` is left completely unchanged — there is no
shared global buffer. -/
theorem c2_event_isolation (p : Nat) (s t : String) (m : ConsoleMsg)
    (r : NetworkReq) (st : ServerState) (L1 L2 : List (Nat × String))
    (sess : BrowserSession)
    (hsplit : st.listeners = L1 ++ (p, s) :: L2)
    (h1 : ∀ b ∈ L1, b.1 ≠ p) (h2 : ∀ b ∈ L2, b.1 ≠ p)
    (hneq : t ≠ s)
    (hsess : lookupKey s st.sessions = some sess) :
    lookupKey t (deliverConsole p m st).sessions = lookupKey t st.sessions ∧
    lookupKey t (deliverNetwork p r st).sessions = lookupKey t st.sessions ∧
    lookupKey s (deliverConsole p m st).sessions =
      some { sess with console_messages := sess.console_messages ++ [m] } ∧
    lookupKey s (deliverNetwork p r st).sessions =
      some { sess with network_requests := sess.network_requests ++ [r] } := by
  have hc := deliverEvent_spec
    (fun s0 => { s0 with console_messages := s0.console_messages ++ [m] })
    p s st L1 L2 sess hsplit h1 h2 hsess
  have hn := deliverEvent_spec
    (fun s0 => { s0 with network_requests := s0.network_requests ++ [r] })
    p s st L1 L2 sess hsplit h1 h2 hsess
  exact ⟨hc.1 t hneq, hn.1 t hneq, hc.2, hn.2⟩

/-- C2 witness: a console message and a network request fired on page 7
(bound to session `"a"`) land in `"a"`'s buffers and leave `"b"`'s entry
untouched. -/
theorem c2_event_isolation_witness :
    lookupKey "b"
        (deliverConsole 7 ⟨"error", "boom", "app.js"⟩ twoSessionState).sessions =
      lookupKey "b" twoSessionState.sessions ∧
    lookupKey "b"
        (deliverNetwork 7 ⟨"http://x", "GET", [], "fetch"⟩ twoSessionState).sessions =
      lookupKey "b" twoSessionState.sessions ∧
    lookupKey "a"
        (deliverConsole 7 ⟨"error", "boom", "app.js"⟩ twoSessionState).sessions =
      some { sessA with
               console_messages := sessA.console_messages ++ [⟨"error", "boom", "app.js"⟩] } ∧
    lookupKey "a"
        (deliverNetwork 7 ⟨"http://x", "GET", [], "fetch"⟩ twoSessionState).sessions =
      some { sessA with
               network_requests := sessA.network_requests ++ [⟨"http://x", "GET", [], "fetch"⟩] } :=
  c2_event_isolation 7 "a" "b" ⟨"error", "boom", "app.js"⟩
    ⟨"http://x", "GET", [], "fetch"⟩ twoSessionState [] [(8, "b")] sessA
    (by decide) (by decide) (by decide) (by decide) (by decide)

end PwMcp

namespace PwMcp

/-! Cursor-invariant preservation for the tab-list transitions. -/

/-- `tabs_close` never touches the browser handle. -/
theorem tabs_close_browser (s : BrowserSession) (index : Option Int) :
    (tabs_close s index).1.browser = s.browser := by
  unfold tabs_close
  by_cases hrange :
      0 ≤ index.getD s.current_page_index ∧
        index.getD s.current_page_index < (s.pages.length : Int)
  · rw [if_pos hrange]
  · rw [if_neg hrange]

/-- `tabs_select` never touches the browser handle or the tab list. -/
theorem tabs_select_browser_pages (s : BrowserSession) (index : Option Int) :
    (tabs_select s index).1.browser = s.browser ∧
    (tabs_select s index).1.pages = s.pages := by
  cases index with
  | none => exact ⟨rfl, rfl⟩
  | some idx =>
    simp only [tabs_select]
    by_cases hrange : 0 ≤ idx ∧ idx < (s.pages.length : Int)
    · rw [if_pos hrange]
      exact ⟨rfl, rfl⟩
    · rw [if_neg hrange]
      exact ⟨rfl, rfl⟩

/-- After `tabs_create`, a browser is always open. -/
theorem tabs_create_browser_isSome (s : BrowserSession) (fresh : Nat) :
    (tabs_create s fresh).browser.isSome = true := by
  unfold tabs_create
  by_cases hb : s.browser.isSome
  · simp [hb]
  · simp [hb, browser_init]

/-- Closing a tab preserves the cursor invariant. -/
theorem cursorInv_tabs_close (s : BrowserSession) (index : Option Int)
    (h : CursorInv s) : CursorInv (tabs_close s index).1 := by
  unfold tabs_close
  by_cases hrange :
      0 ≤ index.getD s.current_page_index ∧
        index.getD s.current_page_index < (s.pages.length : Int)
  · rw [if_pos hrange]
    intro hne
    dsimp only at hne ⊢
    have hlt : (index.getD s.current_page_index).toNat < s.pages.length := by
      omega
    have hlen :
        (s.pages.eraseIdx (index.getD s.current_page_index).toNat).length + 1 =
          s.pages.length :=
      List.length_eraseIdx_add_one hlt
    have hpos :
        0 < (s.pages.eraseIdx (index.getD s.current_page_index).toNat).length :=
      List.length_pos.2 hne
    by_cases hclamp :
        ((s.pages.eraseIdx (index.getD s.current_page_index).toNat).length : Int) ≤
          s.current_page_index
    · rw [if_pos hclamp]
      constructor
      · exact le_max_left _ _
      · rw [max_eq_right (by omega : (0 : Int) ≤
          ((s.pages.eraseIdx (index.getD s.current_page_index).toNat).length : Int) - 1)]
        omega
    · rw [if_neg hclamp]
      have hsne : s.pages ≠ [] := by
        intro h0
        rw [h0] at hrange
        simp at hrange
        omega
      obtain ⟨h0, _⟩ := h hsne
      exact ⟨h0, by omega⟩
  · rw [if_neg hrange]
    exact h

/-- Selecting a tab preserves the cursor invariant. -/
theorem cursorInv_tabs_select (s : BrowserSession) (index : Option Int)
    (h : CursorInv s) : CursorInv (tabs_select s index).1 := by
  cases index with
  | none => exact h
  | some idx =>
    simp only [tabs_select]
    by_cases hrange : 0 ≤ idx ∧ idx < (s.pages.length : Int)
    · rw [if_pos hrange]
      intro _
      exact hrange
    · rw [if_neg hrange]
      exact h

/-- Creating a tab always yields a non-empty tab list with the cursor on
its last entry, hence the cursor invariant. -/
theorem cursorInv_tabs_create (s : BrowserSession) (fresh : Nat) :
    CursorInv (tabs_create s fresh) := by
  unfold tabs_create
  intro hne
  dsimp only at hne ⊢
  constructor
  · simp only [List.length_append, List.length_cons, List.length_nil]
    omega
  · simp only [List.length_append, List.length_cons, List.length_nil]
    omega

end PwMcp

namespace PwMcp

/-- A pointwise session property that ignores `last_activity` and holds for
fresh sessions is preserved across `get_session`. -/
theorem get_session_mem_preserve {P : BrowserSession → Prop}
    (hlast : ∀ s t, P s → P { s with last_activity := t })
    (hnew : ∀ sid t, P (newSession sid t))
    {t : Int} {sid : String} {st : ServerState}
    (h : ∀ p ∈ st.sessions, P p.2) :
    ∀ p ∈ (get_session t sid st).sessions, P p.2 := by
  by_cases hmem : lookupKey sid st.sessions = none
  · by_cases hcap : MAX_SESSIONS ≤ st.sessions.length
    · have hne : st.sessions ≠ [] := by
        intro h0
        rw [h0] at hcap
        simp [MAX_SESSIONS] at hcap
      obtain ⟨e, hminE⟩ := pyMinEntry_isSome _ hne
      rw [get_session_full hmem hcap hminE]
      intro p hp
      dsimp only at hp
      rcases List.mem_append.1 hp with hp | hp
      · exact h p hp
      · simp only [List.mem_singleton] at hp
        subst hp
        exact hnew sid t
    · rw [get_session_new hmem (not_le.1 hcap)]
      intro p hp
      dsimp only at hp
      rcases List.mem_append.1 hp with hp | hp
      · exact h p hp
      · simp only [List.mem_singleton] at hp
        subst hp
        exact hnew sid t
  · obtain ⟨s0, hsome⟩ : ∃ s0, lookupKey sid st.sessions = some s0 := by
      cases hh : lookupKey sid st.sessions with
      | none => exact absurd hh hmem
      | some s0 => exact ⟨s0, rfl⟩
    rw [get_session_present hsome]
    intro p hp
    dsimp only at hp
    rcases mem_updateKey hp with hp | ⟨q, hq, rfl⟩
    · exact h p hp
    · exact hlast _ _ (h q hq)

/-- The registry contents produced by each `browser_tabs` action: either
nothing changes beyond `get_session` (unreachable lookup miss, `list`) or
the resolved session is replaced by the corresponding tab-list
transition. -/
theorem browser_tabs_sessions (t : Int) (a : TabAction) (sid : String)
    (index : Option Int) (fresh : Nat) (st : ServerState) :
    (browser_tabs t a sid index fresh st).1.sessions =
      (match lookupKey sid (get_session t sid st).sessions, a with
        | none, _ => (get_session t sid st).sessions
        | some _, .list => (get_session t sid st).sessions
        | some s, .create =>
            updateKey sid (fun _ => tabs_create s fresh)
              (get_session t sid st).sessions
        | some s, .close =>
            updateKey sid (fun _ => (tabs_close s index).1)
              (get_session t sid st).sessions
        | some s, .select =>
            updateKey sid (fun _ => (tabs_select s index).1)
              (get_session t sid st).sessions) := by
  unfold browser_tabs
  dsimp only
  cases hl : lookupKey sid (get_session t sid st).sessions with
  | none => cases a <;> rfl
  | some s => cases a <;> rfl

/-- The registry contents produced by `browser_open`: beyond `get_session`,
either nothing (browser already open or lookup miss) or the resolved
session is initialized. -/
theorem browser_open_sessions (t : Int) (sid : String) (h : Nat)
    (st : ServerState) :
    (browser_open t sid h st).1.sessions = (get_session t sid st).sessions ∨
    (browser_open t sid h st).1.sessions =
      updateKey sid (fun s0 => browser_init s0 h)
        (get_session t sid st).sessions := by
  unfold browser_open
  dsimp only
  cases hl : lookupKey sid (get_session t sid st).sessions with
  | none => exact Or.inl rfl
  | some s =>
    dsimp only
    by_cases hb : s.browser.isSome = true
    · rw [if_pos hb]
      exact Or.inl rfl
    · rw [if_neg hb]
      exact Or.inr rfl

end PwMcp

namespace PwMcp

/-- C7: every `browser_tabs` action (list, create, close, select) preserves
the cursor invariant `0 ≤ current_page_index < len(pages)` for every
resident session with a non-empty tab list; after a valid close whose
removal leaves the cursor at or past the new length, the cursor is clamped
to `max 0 (len - 1)`; and in the three-tab scenario with the cursor on
index 2, closing tab 1 leaves two tabs with the cursor on the page that
was previously at index 2 (now index 1). -/
theorem c7_tabs_cursor_invariant
    (t : Int) (a : TabAction) (sid : String) (index : Option Int) (fresh : Nat)
    (st : ServerState) (s2 : BrowserSession) (idx : Int)
    (p0 p1 p2 : Nat) (sB : BrowserSession)
    (hst : ∀ p ∈ st.sessions, CursorInv p.2)
    (h0 : 0 ≤ idx) (h1 : idx < (s2.pages.length : Int))
    (hge : ((s2.pages.eraseIdx idx.toNat).length : Int) ≤ s2.current_page_index)
    (hB : sB.pages = [p0, p1, p2]) (hBc : sB.current_page_index = 2) :
    (∀ p ∈ (browser_tabs t a sid index fresh st).1.sessions, CursorInv p.2) ∧
    (tabs_close s2 (some idx)).1.current_page_index =
      max 0 (((s2.pages.eraseIdx idx.toNat).length : Int) - 1) ∧
    ((tabs_close sB (some 1)).1.pages = [p0, p2] ∧
     (tabs_close sB (some 1)).1.current_page_index = 1 ∧
     get_current_page (tabs_close sB (some 1)).1 = some p2) := by
  refine ⟨?_, ?_, ?_⟩
  · have hst1 : ∀ p ∈ (get_session t sid st).sessions, CursorInv p.2 :=
      get_session_mem_preserve (fun s t' h => h) (fun sid' t' h => absurd rfl h)
        hst
    rw [browser_tabs_sessions]
    cases hl : lookupKey sid (get_session t sid st).sessions with
    | none =>
      cases a <;> exact hst1
    | some s =>
      have hcs : CursorInv s := hst1 (sid, s) (lookupKey_mem hl)
      cases a with
      | list => exact hst1
      | create =>
        intro p hp
        rcases mem_updateKey hp with hp | ⟨q, hq, rfl⟩
        · exact hst1 p hp
        · exact cursorInv_tabs_create s fresh
      | close =>
        intro p hp
        rcases mem_updateKey hp with hp | ⟨q, hq, rfl⟩
        · exact hst1 p hp
        · exact cursorInv_tabs_close s index hcs
      | select =>
        intro p hp
        rcases mem_updateKey hp with hp | ⟨q, hq, rfl⟩
        · exact hst1 p hp
        · exact cursorInv_tabs_select s index hcs
  · unfold tabs_close
    simp only [Option.getD_some]
    rw [if_pos ⟨h0, h1⟩]
    dsimp only
    rw [if_pos hge]
  · unfold tabs_close
    simp only [Option.getD_some]
    have hcond : (0 : Int) ≤ 1 ∧ (1 : Int) < (sB.pages.length : Int) := by
      rw [hB]
      norm_num
    rw [if_pos hcond]
    have herase : sB.pages.eraseIdx (1 : Int).toNat = [p0, p2] := by
      rw [hB]
      rfl
    have hclamp :
        ((sB.pages.eraseIdx (1 : Int).toNat).length : Int) ≤
          sB.current_page_index := by
      rw [herase, hBc]
      norm_num
    dsimp only
    rw [if_pos hclamp, herase]
    refine ⟨rfl, by norm_num, ?_⟩
    unfold get_current_page
    dsimp only
    rw [if_pos ?cond]
    case cond =>
      refine ⟨by simp, by norm_num, by norm_num⟩
    rfl

/-- C7 witness: the invariant preservation on the one-open-session registry
plus the clamp equation and scenario B on the three-tab session. -/
theorem c7_tabs_cursor_invariant_witness :
    (∀ p ∈ (browser_tabs 5 TabAction.close "s" none 9 oneOpenState).1.sessions,
      CursorInv p.2) ∧
    (tabs_close threeTabSession (some 1)).1.current_page_index =
      max 0 (((threeTabSession.pages.eraseIdx (1 : Int).toNat).length : Int) - 1) ∧
    ((tabs_close threeTabSession (some 1)).1.pages = [10, 12] ∧
     (tabs_close threeTabSession (some 1)).1.current_page_index = 1 ∧
     get_current_page (tabs_close threeTabSession (some 1)).1 = some 12) :=
  c7_tabs_cursor_invariant 5 TabAction.close "s" none 9 oneOpenState
    threeTabSession 1 10 11 12 threeTabSession
    (by decide) (by decide) (by decide) (by decide) (by decide) (by decide)

end PwMcp

namespace PwMcp

/-- C10: closing the last remaining tab of an open session leaves the
session resident in the registry, open with zero tabs: the tab list becomes
empty, the cursor becomes 0, the browser/context/driver handles stay
allocated, and no teardown or reopening happens.  `get_current_page` then
yields `None`, so a subsequent page-borrowing tool returns the
`"No browser page available"` error. -/
theorem c10_close_last_tab (t t2 : Int) (sid : String) (st : ServerState)
    (s : BrowserSession) (b pg : Nat) (fresh : Nat)
    (hs : lookupKey sid st.sessions = some s)
    (hb : s.browser = some b)
    (hp : s.pages = [pg])
    (hc : s.current_page_index = 0) :
    ∃ s1,
      lookupKey sid
          (browser_tabs t TabAction.close sid none fresh st).1.sessions =
        some s1 ∧
      s1.browser = some b ∧ s1.context = s.context ∧
      s1.playwright_instance = s.playwright_instance ∧
      s1.pages = [] ∧ s1.current_page_index = 0 ∧
      get_current_page s1 = none ∧
      (browser_tabs t TabAction.close sid none fresh st).2 =
        "Closed tab at index 0" ∧
      (browser_navigate_back t2 sid
          (browser_tabs t TabAction.close sid none fresh st).1).2 =
        ToolResult.error noPageError := by
  have hl1 : lookupKey sid (get_session t sid st).sessions =
      some { s with last_activity := t } := by
    rw [get_session_present hs]
    dsimp only
    rw [lookupKey_updateKey_self, hs]
    rfl
  have hclose : tabs_close { s with last_activity := t } none =
      ({ s with last_activity := t, pages := [], current_page_index := 0 },
       "Closed tab at index 0") := by
    unfold tabs_close
    dsimp only [Option.getD_none]
    rw [hp, hc]
    rw [if_pos (by norm_num)]
    dsimp only [List.eraseIdx]
    rw [if_pos (by norm_num : ((List.length ([] : List Nat) : Int)) ≤ 0)]
    refine Prod.ext rfl ?_
    show "Closed tab at index " ++ toString (0 : Int) = "Closed tab at index 0"
    decide
  have hsess :
      (browser_tabs t TabAction.close sid none fresh st).1.sessions =
        updateKey sid
          (fun _ => (tabs_close { s with last_activity := t } none).1)
          (get_session t sid st).sessions := by
    rw [browser_tabs_sessions]
    simp only [hl1]
  have hlook :
      lookupKey sid
          (browser_tabs t TabAction.close sid none fresh st).1.sessions =
        some { s with last_activity := t, pages := [], current_page_index := 0 } := by
    rw [hsess, lookupKey_updateKey_self, hl1, hclose]
    rfl
  refine ⟨{ s with last_activity := t, pages := [], current_page_index := 0 },
    hlook, hb, rfl, rfl, rfl, rfl, ?_, ?_, ?_⟩
  · unfold get_current_page
    rw [if_neg]
    dsimp only
    intro hcontra
    exact hcontra.1 rfl
  · unfold browser_tabs
    dsimp only
    rw [hl1]
    dsimp only
    rw [hclose]
  · have hl2 : lookupKey sid
        (get_session t2 sid
          (browser_tabs t TabAction.close sid none fresh st).1).sessions =
        some { s with last_activity := t2, pages := [], current_page_index := 0 } := by
      rw [get_session_present hlook]
      dsimp only
      rw [lookupKey_updateKey_self, hlook]
      rfl
    unfold browser_navigate_back
    dsimp only
    rw [hl2]
    dsimp only
    unfold get_current_page
    rw [if_neg]
    intro hcontra
    exact hcontra.1 rfl

/-- C10 witness: the open single-tab session `"s"` of `oneOpenState`. -/
theorem c10_close_last_tab_witness :
    ∃ s1,
      lookupKey "s"
          (browser_tabs 5 TabAction.close "s" none 9 oneOpenState).1.sessions =
        some s1 ∧
      s1.browser = some 3 ∧ s1.context = openSession1.context ∧
      s1.playwright_instance = openSession1.playwright_instance ∧
      s1.pages = [] ∧ s1.current_page_index = 0 ∧
      get_current_page s1 = none ∧
      (browser_tabs 5 TabAction.close "s" none 9 oneOpenState).2 =
        "Closed tab at index 0" ∧
      (browser_navigate_back 6 "s"
          (browser_tabs 5 TabAction.close "s" none 9 oneOpenState).1).2 =
        ToolResult.error noPageError :=
  c10_close_last_tab 5 6 "s" oneOpenState openSession1 3 7 9
    (by decide) (by decide) (by decide) (by decide)

end PwMcp

namespace PwMcp

/-! Preservation of the open/closed consistency shape. -/

/-- Membership survives any sequence of key erasures. -/
theorem mem_foldl_erase {ks : List String}
    {ss : List (String × BrowserSession)} {p : String × BrowserSession}
    (hp : p ∈ ks.foldl (fun a k => eraseKey k a) ss) : p ∈ ss := by
  induction ks generalizing ss with
  | nil => exact hp
  | cons k ks ih =>
    simp only [List.foldl_cons] at hp
    exact mem_of_mem_eraseKey (ih hp)

/-- Closing a tab preserves open/closed consistency. -/
theorem sessionConsistent_tabs_close (s : BrowserSession) (index : Option Int)
    (h : SessionConsistent s) : SessionConsistent (tabs_close s index).1 := by
  cases hbr : s.browser with
  | none =>
    have hpages := h hbr
    unfold tabs_close
    by_cases hrange :
        0 ≤ index.getD s.current_page_index ∧
          index.getD s.current_page_index < (s.pages.length : Int)
    · exfalso
      rw [hpages] at hrange
      simp at hrange
      omega
    · rw [if_neg hrange]
      exact h
  | some bb =>
    intro hnone
    rw [tabs_close_browser, hbr] at hnone
    cases hnone

/-- Selecting a tab preserves open/closed consistency. -/
theorem sessionConsistent_tabs_select (s : BrowserSession) (index : Option Int)
    (h : SessionConsistent s) : SessionConsistent (tabs_select s index).1 := by
  intro hnone
  obtain ⟨hbrw, hpg⟩ := tabs_select_browser_pages s index
  rw [hbrw] at hnone
  rw [hpg]
  exact h hnone

/-- After creating a tab the browser is open, so consistency is vacuous. -/
theorem sessionConsistent_tabs_create (s : BrowserSession) (fresh : Nat) :
    SessionConsistent (tabs_create s fresh) := by
  intro hnone
  exfalso
  have hsome := tabs_create_browser_isSome s fresh
  rw [hnone] at hsome
  cases hsome

/-- C3 (amended): after any completed registry or tab-list operation, every
resident session satisfies the weaker dichotomy the code actually
maintains: a session never holds pages while its browser is `None` — it is
fully closed, fully open, or (after closing the last tab) open with zero
tabs.  The original two-way dichotomy is refuted by
the counterexample below. -/
theorem c3_session_dichotomy_amended (op : Op) (st : ServerState)
    (h : ∀ p ∈ st.sessions, SessionConsistent p.2) :
    ∀ p ∈ (applyOp op st).sessions, SessionConsistent p.2 := by
  have hresolve : ∀ (t : Int) (sid : String) (st' : ServerState),
      (∀ p ∈ st'.sessions, SessionConsistent p.2) →
      ∀ p ∈ (get_session t sid st').sessions, SessionConsistent p.2 :=
    fun t sid st' h' =>
      get_session_mem_preserve (fun s t0 hs0 => hs0) (fun sid0 t0 _ => rfl) h'
  cases op with
  | resolve t sid => exact hresolve t sid st h
  | openBrowser t sid hh =>
    simp only [applyOp]
    rcases browser_open_sessions t sid hh st with heq | heq
    · rw [heq]
      exact hresolve t sid st h
    · rw [heq]
      intro p hp
      rcases mem_updateKey hp with hp | ⟨q, hq, rfl⟩
      · exact hresolve t sid st h p hp
      · intro hnone
        simp [browser_init] at hnone
  | tabs t a sid index fresh =>
    have h1 := hresolve t sid st h
    simp only [applyOp]
    rw [browser_tabs_sessions]
    cases hl : lookupKey sid (get_session t sid st).sessions with
    | none => cases a <;> exact h1
    | some s =>
      have hcs : SessionConsistent s := h1 (sid, s) (lookupKey_mem hl)
      cases a with
      | list => exact h1
      | create =>
        intro p hp
        rcases mem_updateKey hp with hp | ⟨q, hq, rfl⟩
        · exact h1 p hp
        · exact sessionConsistent_tabs_create s fresh
      | close =>
        intro p hp
        rcases mem_updateKey hp with hp | ⟨q, hq, rfl⟩
        · exact h1 p hp
        · exact sessionConsistent_tabs_close s index hcs
      | select =>
        intro p hp
        rcases mem_updateKey hp with hp | ⟨q, hq, rfl⟩
        · exact h1 p hp
        · exact sessionConsistent_tabs_select s index hcs
  | close sid o =>
    simp only [applyOp]
    rw [(cleanup_session_sessions sid o st).1]
    intro p hp
    exact h p (mem_of_mem_eraseKey hp)
  | sweep now o =>
    simp only [applyOp]
    have hsess : (session_cleanup_sweep now o st).sessions =
        ((st.sessions.filter fun p =>
            SESSION_TIMEOUT < now - p.2.last_activity).map Prod.fst).foldl
          (fun a k => eraseKey k a) st.sessions := by
      unfold session_cleanup_sweep
      exact foldl_cleanup_sessions o _ st
    rw [hsess]
    intro p hp
    exact h p (mem_foldl_erase hp)
  | drain o =>
    simp only [applyOp]
    have hsess : (runPending o st).sessions =
        st.pending.foldl (fun a k => eraseKey k a) st.sessions := by
      unfold runPending
      rw [foldl_cleanup_sessions]
    rw [hsess]
    intro p hp
    exact h p (mem_foldl_erase hp)

/-- C3 witness: closing the only tab of the open session `"s"` keeps every
resident session consistent in the amended sense. -/
theorem c3_session_dichotomy_amended_witness :
    (∀ p ∈ oneOpenState.sessions, SessionConsistent p.2) ∧
    (∀ p ∈ (applyOp (Op.tabs 1 TabAction.close "s" none 9)
        oneOpenState).sessions,
      SessionConsistent p.2) :=
  ⟨by decide,
   c3_session_dichotomy_amended (Op.tabs 1 TabAction.close "s" none 9)
     oneOpenState (by decide)⟩

/-- C3 (counterexample): after closing the only tab of the open session
`"s"` — a completed `browser_tabs` operation — the resident session has an
allocated browser and an empty tab list, so it is neither fully closed nor
fully open: the spec's two-way dichotomy fails. -/
theorem c3_fully_closed_or_open_counterexample :
    ¬ ∀ p ∈ (applyOp (Op.tabs 1 TabAction.close "s" none 9)
          oneOpenState).sessions,
        FullyClosedOrOpen p.2 := by decide

end PwMcp
